import Mathlib

/-!
# Verification of the mini-wallet application

A shallow embedding, in Lean 4, of the parts of the `mini-wallet-application`
repository that the specification's testable properties talk about:

* the encryption utility (`src/utils/encryption.js`): PBKDF2 key derivation and
  AES-256-GCM authenticated encryption of private-key material, packaged as a
  base64 token `salt ‖ iv ‖ tag ‖ ciphertext`;
* the application error classes (`src/utils/errors.js`);
* the repositories (`src/repositories/*.js`): wallet and transaction CRUD over
  PostgreSQL, with the unique-hash constraint on transactions;
* the services (`src/services/wallet.service.js`,
  `src/services/blockchain.service.js`): wallet creation, fund transfer,
  transaction storage, status reconciliation and paginated history;
* the GraphQL authentication middleware (`src/middleware/auth.middleware.js`).

Byte strings are modelled as `List Nat` with every entry `< 256`.  External
cryptographic primitives (PBKDF2, the AES-GCM keystream and authentication
tag) are not part of the repository; they are modelled by concrete executable
functions that preserve exactly the structure the repository relies on
(deterministic key derivation from secret + salt, a keystream cipher inverted
by subtraction, and a tag recomputed and compared on decryption).  Everything
written by the repository itself (lengths, slicing offsets, token layout,
base64 framing, control flow, error messages) is translated directly from the
source.
-/

/-! ## Bytes -/

/-- A byte string: a list of naturals, well-formed when every entry is `< 256`. -/
abbrev Bytes : Type := List Nat

/-- Well-formedness of a byte string: every entry fits in one octet. -/
def BytesWF (bs : Bytes) : Prop := ∀ b ∈ bs, b < 256

instance : DecidablePred BytesWF := fun bs =>
  inferInstanceAs (Decidable (∀ b ∈ bs, b < 256))

/-! ## Base64 (`Buffer.toString('base64')` / `Buffer.from(_, 'base64')`)

The token produced by `encrypt` is the base64 rendering of the byte string
`salt ‖ iv ‖ tag ‖ ciphertext`; `decrypt` begins by decoding the token back
to bytes.  Node's decoder is lenient: characters outside the (URL-safe
extended) alphabet and padding are skipped, and a trailing group shorter
than four characters contributes only its complete bytes. -/

/-- The base64 alphabet: sextet `n < 64` to character. -/
def b64Char (n : Nat) : Char :=
  if n < 26 then Char.ofNat (65 + n)
  else if n < 52 then Char.ofNat (97 + (n - 26))
  else if n < 62 then Char.ofNat (48 + (n - 52))
  else if n = 62 then '+'
  else '/'

/-- Decoding table: character to sextet.  Also accepts the URL-safe variants
`-` and `_`, as Node's base64 decoder does. -/
def b64Index (c : Char) : Option Nat :=
  let n := c.toNat
  if 65 ≤ n ∧ n ≤ 90 then some (n - 65)
  else if 97 ≤ n ∧ n ≤ 122 then some (n - 97 + 26)
  else if 48 ≤ n ∧ n ≤ 57 then some (n - 48 + 52)
  else if c = '+' ∨ c = '-' then some 62
  else if c = '/' ∨ c = '_' then some 63
  else none

/-- A character carrying a sextet (everything except padding and junk). -/
def isB64Char (c : Char) : Bool := (b64Index c).isSome

/-- Base64-encode a byte string, three bytes to four characters, padding the
final group with `=`. -/
def encodeB64 : Bytes → List Char
  | [] => []
  | [b0] => [b64Char (b0 / 4), b64Char (b0 % 4 * 16), '=', '=']
  | [b0, b1] => [b64Char (b0 / 4), b64Char (b0 % 4 * 16 + b1 / 16), b64Char (b1 % 16 * 4), '=']
  | b0 :: b1 :: b2 :: rest =>
      b64Char (b0 / 4) :: b64Char (b0 % 4 * 16 + b1 / 16) ::
      b64Char (b1 % 16 * 4 + b2 / 64) :: b64Char (b2 % 64) :: encodeB64 rest

/-- Sextet of a character, defaulting junk to 0 (junk is filtered out before
this is applied). -/
def b64IndexD (c : Char) : Nat := (b64Index c).getD 0

/-- Decode a run of alphabet characters, four characters to three bytes; a
final group of 2 or 3 characters yields 1 or 2 bytes, a lone character
yields nothing. -/
def decodeB64Run : List Char → Bytes
  | c0 :: c1 :: c2 :: c3 :: rest =>
      (b64IndexD c0 * 4 + b64IndexD c1 / 16) ::
      (b64IndexD c1 % 16 * 16 + b64IndexD c2 / 4) ::
      (b64IndexD c2 % 4 * 64 + b64IndexD c3) :: decodeB64Run rest
  | [c0, c1, c2] =>
      [b64IndexD c0 * 4 + b64IndexD c1 / 16,
       b64IndexD c1 % 16 * 16 + b64IndexD c2 / 4]
  | [c0, c1] => [b64IndexD c0 * 4 + b64IndexD c1 / 16]
  | [_] => []
  | [] => []

/-- Node-style lenient base64 decode: skip non-alphabet characters (including
padding), then decode in groups of four. -/
def decodeB64 (s : List Char) : Bytes := decodeB64Run (s.filter isB64Char)

/-! ## Encryption module (`src/utils/encryption.js`)

`encrypt` draws a fresh 64-byte salt and 16-byte IV, derives a 32-byte key by
PBKDF2 (100000 iterations, SHA-512) from the process secret and the salt,
encrypts with AES-256-GCM, and returns `base64(salt ‖ iv ‖ tag ‖ ciphertext)`.
`decrypt` decodes, slices at the fixed offsets 64/80/96, re-derives the key,
and decrypts, with the GCM tag verified at `final()`.

The source generates salt and IV with `crypto.randomBytes` inside `encrypt`;
randomness is modelled by passing them as arguments.  PBKDF2, the AES-GCM
keystream and the authentication tag are external library primitives; they
are modelled by executable byte functions with the properties the repository
relies on: determinism, keystream encryption being inverted by subtraction,
and the tag being recomputed and compared on decryption. -/

namespace Encryption

def SALT_LENGTH : Nat := 64
def IV_LENGTH : Nat := 16
def TAG_LENGTH : Nat := 16
def KEY_LENGTH : Nat := 32
def ITERATIONS : Nat := 100000

/-- Mixing fold used by the modelled crypto primitives. -/
def byteFold (l : Bytes) : Nat := l.foldl (fun a b => a * 31 + b + 1) 7

/-- Modelled `crypto.pbkdf2Sync(password, salt, iterations, keyLen, 'sha512')`:
a deterministic byte string of length `keyLen` mixing password, salt and the
iteration count. -/
def pbkdf2Sync (password salt : Bytes) (iterations keyLen : Nat) : Bytes :=
  (List.range keyLen).map
    (fun j => (byteFold password * (j + 2) + byteFold salt * (2 * j + 3) + iterations + j) % 256)

/-- `deriveKey(salt)`: PBKDF2 over the process-wide secret and the per-call
salt (source lines 16-24). -/
def deriveKey (secret salt : Bytes) : Bytes :=
  pbkdf2Sync secret salt ITERATIONS KEY_LENGTH

/-- Modelled AES-256-GCM keystream byte at position `j`. -/
def ksByte (key iv : Bytes) (j : Nat) : Nat :=
  (byteFold key * (j + 5) + byteFold iv * (j + 11) + j * 17) % 256

/-- Modelled GCM encryption (`cipher.update`/`cipher.final`): add the
keystream byte-wise mod 256. -/
def gcmEncrypt (key iv : Bytes) : Nat → Bytes → Bytes
  | _, [] => []
  | j, b :: bs => (b + ksByte key iv j) % 256 :: gcmEncrypt key iv (j + 1) bs

/-- Modelled GCM decryption (`decipher.update`/`decipher.final`): subtract the
keystream byte-wise mod 256. -/
def gcmDecrypt (key iv : Bytes) : Nat → Bytes → Bytes
  | _, [] => []
  | j, b :: bs => (b + 256 - ksByte key iv j) % 256 :: gcmDecrypt key iv (j + 1) bs

/-- Modelled GCM authentication tag (`cipher.getAuthTag`): 16 bytes determined
by key, IV and ciphertext. -/
def authTag (key iv ct : Bytes) : Bytes :=
  (List.range TAG_LENGTH).map
    (fun j => (byteFold key * 3 + byteFold iv * 5 + byteFold ct * 7 + j * 13) % 256)

/-- `encrypt(text)` (source lines 29-45): derive the key from the fresh salt,
GCM-encrypt under the fresh IV, and return `base64(salt ‖ iv ‖ tag ‖ ct)`. -/
def encrypt (secret salt iv text : Bytes) : List Char :=
  let key := deriveKey secret salt
  let encrypted := gcmEncrypt key iv 0 text
  let tag := authTag key iv encrypted
  encodeB64 (salt ++ iv ++ tag ++ encrypted)

/-- The ways the decryption path throws.  `invalidIV` is
`createDecipheriv`'s rejection of an empty GCM IV (the slice is empty when
the decoded token is shorter than 80 bytes); `authFailed` is
`decipher.final()`'s rejection when the authentication tag does not match.
Neither is an application error class: the `name` of the thrown JS error is
`TypeError` resp. `Error`. -/
inductive DecryptFailure where
  | invalidIV : DecryptFailure
  | authFailed : DecryptFailure
deriving DecidableEq, Repr

/-- The `name` property of the JS error thrown by the crypto layer. -/
def DecryptFailure.jsName : DecryptFailure → String
  | .invalidIV => "TypeError"
  | .authFailed => "Error"

/-- The `message` property of the JS error thrown by the crypto layer. -/
def DecryptFailure.message : DecryptFailure → String
  | .invalidIV => "Invalid initialization vector"
  | .authFailed => "Unsupported state or unable to authenticate data"

/-- `decrypt(encryptedData)` (source lines 50-66): base64-decode, slice salt /
iv / tag / ciphertext at offsets 0, 64, 80, 96, re-derive the key, and
GCM-decrypt with tag verification. -/
def decrypt (secret : Bytes) (token : List Char) : Except DecryptFailure Bytes :=
  let buffer := decodeB64 token
  let salt := buffer.take SALT_LENGTH
  let iv := (buffer.drop SALT_LENGTH).take IV_LENGTH
  let tag := (buffer.drop (SALT_LENGTH + IV_LENGTH)).take TAG_LENGTH
  let encrypted := buffer.drop (SALT_LENGTH + IV_LENGTH + TAG_LENGTH)
  let key := deriveKey secret salt
  if iv.length = 0 then .error .invalidIV
  else if authTag key iv encrypted ≠ tag then .error .authFailed
  else .ok (gcmDecrypt key iv 0 encrypted)

end Encryption

/-! ## Application error classes (`src/utils/errors.js`)

The classes the errors module defines and exports (lines 147-163 of the
source list the full export).  Each instance's `name` is its constructor
name.  Note there is no `DecryptionError` class anywhere in the module. -/

inductive ErrorClass where
  | appError
  | badRequestError
  | unauthorizedError
  | forbiddenError
  | notFoundError
  | conflictError
  | validationError
  | rateLimitError
  | internalServerError
  | serviceUnavailableError
  | databaseError
  | blockchainError
  | insufficientFundsError
  | invalidAddressError
  | transactionError
deriving DecidableEq, Repr

/-- `this.name = this.constructor.name` in the `AppError` base class. -/
def ErrorClass.className : ErrorClass → String
  | .appError => "AppError"
  | .badRequestError => "BadRequestError"
  | .unauthorizedError => "UnauthorizedError"
  | .forbiddenError => "ForbiddenError"
  | .notFoundError => "NotFoundError"
  | .conflictError => "ConflictError"
  | .validationError => "ValidationError"
  | .rateLimitError => "RateLimitError"
  | .internalServerError => "InternalServerError"
  | .serviceUnavailableError => "ServiceUnavailableError"
  | .databaseError => "DatabaseError"
  | .blockchainError => "BlockchainError"
  | .insufficientFundsError => "InsufficientFundsError"
  | .invalidAddressError => "InvalidAddressError"
  | .transactionError => "TransactionError"

/-- A thrown JS error as observed by a caller: its `name` and `message`.
Errors built with `new Error(msg)` have name `Error`. -/
structure JsError where
  name : String
  message : String
deriving DecidableEq, Repr

/-- `new Error(msg)`. -/
def JsError.generic (msg : String) : JsError := ⟨"Error", msg⟩

/-! ## Data model -/

/-- Transaction lifecycle status (`pending` / `confirmed` / `failed`). -/
inductive TxStatus where
  | pending
  | confirmed
  | failed
deriving DecidableEq, Repr

/-- A terminal status: `confirmed` or `failed`. -/
def TxStatus.isTerminal : TxStatus → Bool
  | .pending => false
  | .confirmed => true
  | .failed => true

/-- A row of the `transactions` table. -/
structure TxRow where
  id : Nat
  walletId : Nat
  hash : String
  fromAddress : String
  toAddress : String
  amount : String
  gasPrice : Option String
  gasUsed : Option String
  status : TxStatus
  blockNumber : Option Nat
  timestamp : Option String
  createdAt : Nat
deriving DecidableEq, Repr

/-- The `transactions` table. -/
abbrev TxStore : Type := List TxRow

/-- A row of the `wallets` table: the only private-key material the table
holds is the encrypted token. -/
structure WalletRow where
  id : Nat
  userId : Nat
  address : String
  encryptedPrivateKey : String
  network : String
  createdAt : Nat
  updatedAt : Nat
deriving DecidableEq, Repr

/-- The `wallets` table. -/
abbrev WalletStore : Type := List WalletRow

/-- A value bound into a parameterized SQL statement or read from a column. -/
inductive DBValue where
  | natV (n : Nat)
  | strV (s : String)
  | nullV
deriving DecidableEq, Repr

/-- A PostgreSQL error as surfaced by the driver; `uniqueViolation` carries
SQLSTATE 23505. -/
inductive PgError where
  | uniqueViolation
  | connectionFailure
deriving DecidableEq, Repr

/-- The driver error's `code` property. -/
def PgError.code : PgError → String
  | .uniqueViolation => "23505"
  | .connectionFailure => "08006"

/-! ## WalletRepository (`src/repositories/WalletRepository.js`) -/

namespace WalletRepository

/-- The bound parameters `$1..$4` of the wallet INSERT (source lines
230-244): user id, address, the encrypted key token, network.  This is all
the wallet data the creation path hands to persistence. -/
def insertParams (userId : Nat) (address encryptedPrivateKey network : String) : List DBValue :=
  [.natV userId, .strV address, .strV encryptedPrivateKey, .strV network]

/-- `createWallet(userId, address, encryptedPrivateKey, network)`: insert and
return the new row (the RETURNING clause projects out the key, which only
`findWithPrivateKey` reads back). -/
def createWallet (s : WalletStore) (nextId now userId : Nat)
    (address encryptedPrivateKey network : String) : WalletRow × WalletStore :=
  let row : WalletRow :=
    { id := nextId, userId := userId, address := address,
      encryptedPrivateKey := encryptedPrivateKey, network := network,
      createdAt := now, updatedAt := now }
  (row, s ++ [row])

/-- `findByUserId`: `SELECT id, user_id, address, network, created_at,
updated_at FROM wallets WHERE user_id = $1 ORDER BY created_at DESC`. -/
def findByUserId (s : WalletStore) (userId : Nat) : List WalletRow :=
  (s.filter (fun r => r.userId = userId)).mergeSort
    (fun a b => decide (b.createdAt ≤ a.createdAt))

/-- `findByIdAndUserId`: `SELECT ... WHERE id = $1 AND user_id = $2`. -/
def findByIdAndUserId (s : WalletStore) (walletId userId : Nat) : Option WalletRow :=
  s.find? (fun r => r.id = walletId ∧ r.userId = userId)

/-- `findWithPrivateKey`: same row selection, but the column list includes
`encrypted_private_key`. -/
def findWithPrivateKey (s : WalletStore) (walletId userId : Nat) : Option WalletRow :=
  s.find? (fun r => r.id = walletId ∧ r.userId = userId)

/-- The column values returned by the key-free wallet reads
(`findByUserId` / `findByIdAndUserId`): id, user_id, address, network,
created_at, updated_at. -/
def publicValues (r : WalletRow) : List DBValue :=
  [.natV r.id, .natV r.userId, .strV r.address, .strV r.network,
   .natV r.createdAt, .natV r.updatedAt]

/-- The column values returned by `findWithPrivateKey`: id, user_id, address,
encrypted_private_key, network. -/
def withKeyValues (r : WalletRow) : List DBValue :=
  [.natV r.id, .natV r.userId, .strV r.address, .strV r.encryptedPrivateKey,
   .strV r.network]

end WalletRepository

/-! ## TransactionRepository (`src/repositories/TransactionRepository.js`) -/

namespace TransactionRepository

/-- `findByHash`: `SELECT * FROM transactions WHERE transaction_hash = $1`
(the hash is unique, so the first match is the only match). -/
def findByHash (s : TxStore) (hash : String) : Option TxRow :=
  s.find? (fun r => r.hash = hash)

/-- `createTransaction` (source lines 524-539): a plain INSERT; the unique
constraint on `transaction_hash` makes the driver raise SQLSTATE 23505 when
the hash is already present.  `dbFault` injects an unrelated driver failure
(e.g. lost connection) on the attempt. -/
def createTransaction (dbFault : Option PgError) (s : TxStore) (nextId now walletId : Nat)
    (hash fromAddr toAddr amount : String) (gasPrice gasUsed : Option String)
    (status : TxStatus) : Except PgError TxRow × TxStore :=
  match dbFault with
  | some e => (.error e, s)
  | none =>
    if s.any (fun r => r.hash = hash) then (.error .uniqueViolation, s)
    else
      let row : TxRow :=
        { id := nextId, walletId := walletId, hash := hash, fromAddress := fromAddr,
          toAddress := toAddr, amount := amount, gasPrice := gasPrice, gasUsed := gasUsed,
          status := status, blockNumber := none, timestamp := none, createdAt := now }
      (.ok row, s ++ [row])

/-- `ORDER BY created_at DESC` (newest first). -/
def sortByCreatedAtDesc (l : List TxRow) : List TxRow :=
  l.mergeSort (fun a b => decide (b.createdAt ≤ a.createdAt))

/-- `findByWalletId` (source lines 581-596): `SELECT * FROM transactions
WHERE wallet_id = $1 ORDER BY created_at DESC LIMIT $2 OFFSET $3`. -/
def findByWalletId (s : TxStore) (walletId limit offset : Nat) : List TxRow :=
  ((sortByCreatedAtDesc (s.filter (fun r => r.walletId = walletId))).drop offset).take limit

/-- `updateTransactionStatus` (source lines 601-616): `UPDATE transactions SET
status = $1, gas_used = $2, block_number = $3, timestamp = $4 WHERE
transaction_hash = $5 RETURNING *` — an unconditional update of every row
with that hash. -/
def updateTransactionStatus (s : TxStore) (hash : String) (status : TxStatus)
    (gasUsed : Option String) (blockNumber : Option Nat) (timestamp : Option String) :
    Option TxRow × TxStore :=
  let s2 := s.map (fun r =>
    if r.hash = hash then
      { r with status := status, gasUsed := gasUsed, blockNumber := blockNumber,
               timestamp := timestamp }
    else r)
  (s2.find? (fun r => r.hash = hash), s2)

end TransactionRepository

/-! ## String/byte helpers used by the services -/

/-- The bytes of a string as handed to the cipher (`utf8`); the strings the
services encrypt and decrypt (hex private keys) are ASCII, where this is the
identity encoding. -/
def strBytes (s : String) : Bytes := s.data.map Char.toNat

/-- Bytes back to a string (inverse of `strBytes` on well-formed bytes). -/
def strOfBytes (b : Bytes) : String := String.mk (b.map Char.ofNat)

/-! ## BlockchainService (`src/services/blockchain.service.js`) -/

namespace BlockchainService

/-- A hexadecimal digit. -/
def isHexDigit (c : Char) : Bool :=
  decide ((48 ≤ c.toNat ∧ c.toNat ≤ 57) ∨ (97 ≤ c.toNat ∧ c.toNat ≤ 102) ∨
    (65 ≤ c.toNat ∧ c.toNat ≤ 70))

/-- Model of `ethers.isAddress`: `0x` followed by 40 hex digits (the EIP-55
mixed-case checksum refinement is abstracted away; every address this
application itself produces is checksummed or lowercase hex). -/
def isAddress (s : String) : Bool :=
  match s.data with
  | '0' :: 'x' :: rest => rest.length = 40 && rest.all isHexDigit
  | _ => false

/-- Decimal digits to a natural. -/
def digitsToNat (l : List Char) : Nat := l.foldl (fun a c => a * 10 + (c.toNat - 48)) 0

/-- Split a character list at its first `.`, if any (the shape `splitOn "."`
takes on decimal strings). -/
def splitFirstDot : List Char → List Char × Option (List Char)
  | [] => ([], none)
  | c :: cs =>
    if c = '.' then ([], some cs)
    else
      let (a, b) := splitFirstDot cs
      (c :: a, b)

/-- Model of `ethers.parseEther`: a decimal ether string to integer wei
(`10^18` base units), `none` when the string is not a valid decimal or has
more than 18 fractional digits (ethers throws there). -/
def parseEther (s : String) : Option Nat :=
  match splitFirstDot s.data with
  | (i, none) =>
    if i ≠ [] ∧ i.all Char.isDigit then some (digitsToNat i * 10 ^ 18) else none
  | (i, some f) =>
    if i ≠ [] ∧ f ≠ [] ∧ f.length ≤ 18 ∧ i.all Char.isDigit ∧ f.all Char.isDigit then
      some (digitsToNat i * 10 ^ 18 + digitsToNat f * 10 ^ (18 - f.length))
    else none

/-- A transaction handed to the network by `wallet.sendTransaction`. -/
structure BroadcastTx where
  hash : String
  fromAddress : String
  toAddress : String
  valueWei : Nat
deriving DecidableEq, Repr

/-- The network's responses during one `sendTransaction` call: the sender
address derived from the private key, the sender's current balance, and the
hash/gas data the provider returns. -/
structure ChainEnv where
  senderAddress : String
  balanceWei : Nat
  txHash : String
  gasLimit : Nat
  maxFeePerGas : Option Nat
deriving Repr

/-- The object `sendTransaction` returns (source lines 107-114). -/
structure SendResult where
  hash : String
  fromAddress : String
  toAddress : String
  amount : String
  gasLimit : String
  maxFeePerGas : String
deriving DecidableEq, Repr

/-- `sendTransaction(privateKey, toAddress, amountInEther)` (source lines
69-119): validate the recipient address, parse the amount, check the balance,
then sign and broadcast.  The broadcast list models the network: it grows
only when `wallet.sendTransaction` is reached.  Every thrown error is
re-thrown by the catch as `new Error(error.message)`, hence name `Error`. -/
def sendTransaction (env : ChainEnv) (chain : List BroadcastTx)
    (privateKey toAddress amountInEther : String) :
    Except JsError SendResult × List BroadcastTx :=
  if ¬ isAddress toAddress then
    (.error (JsError.generic "Invalid recipient address"), chain)
  else
    match parseEther amountInEther with
    | none => (.error (JsError.generic "invalid decimal string"), chain)
    | some amount =>
      if env.balanceWei < amount then
        (.error (JsError.generic "Insufficient balance"), chain)
      else
        let tx : BroadcastTx :=
          { hash := env.txHash, fromAddress := env.senderAddress,
            toAddress := toAddress, valueWei := amount }
        (.ok { hash := env.txHash, fromAddress := env.senderAddress,
               toAddress := toAddress, amount := amountInEther,
               gasLimit := toString env.gasLimit,
               maxFeePerGas :=
                 match env.maxFeePerGas with
                 | some g => toString g
                 | none => "0" },
         chain ++ [tx])

/-- What `getTransaction(hash)` reports back for reconciliation (source lines
124-150): computed status plus receipt data.  `status` is `confirmed` when the
receipt indicates success, `failed` when it indicates reversion, and `pending`
when the transaction exists but has no receipt yet. -/
structure TxDetail where
  status : TxStatus
  gasUsed : Option String
  blockNumber : Option Nat
  timestamp : Option String
deriving DecidableEq, Repr

end BlockchainService

/-! ## WalletService (`src/services/wallet.service.js`) -/

namespace WalletService

open BlockchainService

/-- What `blockchainService.createWallet()` returns (`ethers.Wallet
.createRandom()`): address, private key, and the one-time mnemonic. -/
structure GeneratedWallet where
  address : String
  privateKey : String
  mnemonic : Option String
deriving DecidableEq, Repr

/-- The creation response: the persisted row spread together with the
mnemonic (`return { ...wallet, mnemonic: walletData.mnemonic }`). -/
structure CreateWalletResult where
  row : WalletRow
  mnemonic : Option String
deriving DecidableEq, Repr

/-- `createWallet(userId, network)` (source lines 11-37): generate, encrypt
the private key, persist only `(user_id, address, encrypted_private_key,
network)`, and return the row plus the mnemonic.  The fresh salt and IV used
by `encrypt` are passed explicitly. -/
def createWallet (secret salt iv : Bytes) (ws : WalletStore) (nextId now userId : Nat)
    (g : GeneratedWallet) (network : String) : CreateWalletResult × WalletStore :=
  let encryptedPrivateKey := String.mk (Encryption.encrypt secret salt iv (strBytes g.privateKey))
  let (row, ws2) := WalletRepository.createWallet ws nextId now userId
    g.address encryptedPrivateKey network
  ({ row := row, mnemonic := g.mnemonic }, ws2)

/-- `storeTransaction(...)` (source lines 141-162): insert, and on SQLSTATE
23505 return the already-present row instead; all other failures re-throw as
`Error('Failed to store transaction')`. -/
def storeTransaction (dbFault : Option PgError) (s : TxStore) (nextId now walletId : Nat)
    (hash fromAddr toAddr amount : String) (gasPrice gasUsed : Option String)
    (status : TxStatus) : Except JsError (Option TxRow) × TxStore :=
  match TransactionRepository.createTransaction dbFault s nextId now walletId
      hash fromAddr toAddr amount gasPrice gasUsed status with
  | (.ok row, s2) => (.ok (some row), s2)
  | (.error e, s2) =>
    if e.code = "23505" then (.ok (TransactionRepository.findByHash s2 hash), s2)
    else (.error (JsError.generic "Failed to store transaction"), s2)

/-- `sendFunds(walletId, userId, toAddress, amount)` (source lines 91-136):
load the wallet scoped to the user, decrypt its key, broadcast, then persist a
`pending` row.  The final catch re-throws `new Error(error.message)`, so the
caller sees a generic `Error` carrying the inner message.  The detached
status-reconciliation task it spawns is modelled separately (`reconcile`). -/
def sendFunds (secret : Bytes) (env : ChainEnv) (ws : WalletStore) (ts : TxStore)
    (chain : List BroadcastTx) (walletId userId : Nat) (toAddress amount : String)
    (nextId now : Nat) (dbFault : Option PgError) :
    Except JsError (Option TxRow × SendResult) × TxStore × List BroadcastTx :=
  match WalletRepository.findWithPrivateKey ws walletId userId with
  | none => (.error (JsError.generic "Wallet not found"), ts, chain)
  | some w =>
    match Encryption.decrypt secret w.encryptedPrivateKey.data with
    | .error f => (.error (JsError.generic f.message), ts, chain)
    | .ok pkBytes =>
      match BlockchainService.sendTransaction env chain (strOfBytes pkBytes) toAddress amount with
      | (.error e, chain2) => (.error (JsError.generic e.message), ts, chain2)
      | (.ok txData, chain2) =>
        match storeTransaction dbFault ts nextId now w.id txData.hash txData.fromAddress
            txData.toAddress txData.amount (some txData.maxFeePerGas) none .pending with
        | (.ok rowOpt, ts2) => (.ok (rowOpt, txData), ts2, chain2)
        | (.error e, ts2) => (.error (JsError.generic e.message), ts2, chain2)

/-- `updateTransactionStatus(transactionHash)` (source lines 167-189), the
detached reconciliation task: wait for one confirmation, fetch the final
details, and update the row.  Any failure is caught and only logged, and a
`null` lookup result skips the update, so in both cases the store is
untouched. -/
def reconcile (s : TxStore) (hash : String) (waitOutcome : Except JsError Unit)
    (txDetails : Option TxDetail) : TxStore :=
  match waitOutcome with
  | .error _ => s
  | .ok _ =>
    match txDetails with
    | none => s
    | some d =>
      (TransactionRepository.updateTransactionStatus s hash d.status d.gasUsed
        d.blockNumber d.timestamp).2

/-- A transaction summary pulled from the explorer (or fallback) by
`blockchainService.getTransactionHistory`. -/
structure ChainHistoryTx where
  hash : String
  fromAddr : String
  toAddr : String
  value : String
  gasPrice : Option String
  gasUsed : Option String
  status : TxStatus
deriving DecidableEq, Repr

/-- The ingest loop of `getTransactionHistory` (source lines 209-225): store
each chain transaction, ignoring per-row failures. -/
def ingestHistory (ts : TxStore) (walletId : Nat) (txs : List ChainHistoryTx)
    (nextId now : Nat) : TxStore :=
  (txs.foldl
    (fun (acc : TxStore × Nat) tx =>
      ((storeTransaction none acc.1 acc.2 now walletId tx.hash tx.fromAddr tx.toAddr
          tx.value tx.gasPrice tx.gasUsed tx.status).2, acc.2 + 1))
    (ts, nextId)).1

/-- `getTransactionHistory(walletId, userId, limit, offset)` (source lines
194-233): load the wallet scoped to the user, opportunistically ingest the
chain history, then always serve the paginated page from persistence. -/
def getTransactionHistory (ws : WalletStore) (ts : TxStore) (walletId userId : Nat)
    (chainTxs : List ChainHistoryTx) (limit offset nextId now : Nat) :
    Except JsError (List TxRow) × TxStore :=
  match WalletRepository.findByIdAndUserId ws walletId userId with
  | none => (.error (JsError.generic "Failed to fetch transaction history"), ts)
  | some w =>
    let ts2 := ingestHistory ts w.id chainTxs nextId now
    (.ok (TransactionRepository.findByWalletId ts2 walletId limit offset), ts2)

end WalletService

/-! ## GraphQL authentication middleware (`src/middleware/auth.middleware.js`) -/

/-- The payload `authService.verifyToken` yields for a valid token. -/
structure UserClaims where
  userId : Nat
  username : String
deriving DecidableEq, Repr

/-- The part of the incoming request the context builder reads. -/
structure GqlRequest where
  authorization : Option String
deriving DecidableEq, Repr

/-- The GraphQL context: `user` is `null` until authentication succeeds. -/
structure AuthContext where
  user : Option UserClaims
deriving DecidableEq, Repr

/-- Strip an optional `Bearer ` prefix from the header value. -/
def stripBearer (h : String) : String :=
  if h.startsWith "Bearer " then h.drop 7 else h

/-- `authenticateGraphQL` (source lines 41-65): absent header yields a null
user; a verification failure is caught and also yields a null user; only a
verified token populates `user`.  `verify` is `authService.verifyToken`,
which throws (`Except.error`) on an invalid or expired token. -/
def authenticateGraphQL (verify : String → Except JsError UserClaims)
    (req : GqlRequest) : AuthContext :=
  match req.authorization with
  | none => { user := none }
  | some h =>
    match verify (stripBearer h) with
    | .ok u => { user := some u }
    | .error _ => { user := none }

/-- `requireAuth(context)` (source lines 70-75): throw
`Error('Authentication required')` when the context has no user. -/
def requireAuth (ctx : AuthContext) : Except JsError UserClaims :=
  match ctx.user with
  | none => .error (JsError.generic "Authentication required")
  | some u => .ok u

/-! ## Transaction-lifecycle trace system

The only operations that write the `transactions` table are the service's
`storeTransaction` (called from `sendFunds` and from the history-sync ingest
loop) and the detached reconciliation task.  A trace interleaves these
operations with arbitrary arguments, the chain's answers (`waitOutcome`,
`txDetails`) being unconstrained environment inputs exactly as the code
leaves them. -/

/-- One store-writing operation. -/
inductive TxOp where
  | store (dbFault : Option PgError) (nextId now walletId : Nat)
      (hash fromAddr toAddr amount : String) (gasPrice gasUsed : Option String)
      (status : TxStatus)
  | reconcile (hash : String) (waitOutcome : Except JsError Unit)
      (txDetails : Option BlockchainService.TxDetail)

/-- Effect of one operation on the `transactions` table. -/
def applyTxOp (s : TxStore) : TxOp → TxStore
  | .store dbFault nextId now walletId hash fromAddr toAddr amount gasPrice gasUsed status =>
      (WalletService.storeTransaction dbFault s nextId now walletId hash fromAddr toAddr
        amount gasPrice gasUsed status).2
  | .reconcile hash waitOutcome txDetails =>
      WalletService.reconcile s hash waitOutcome txDetails

/-- Run a trace. -/
def runTxOps (s : TxStore) (ops : List TxOp) : TxStore := ops.foldl applyTxOp s

/-- The status the store currently records for a hash. -/
def statusOf (s : TxStore) (hash : String) : Option TxStatus :=
  (TransactionRepository.findByHash s hash).map (fun r => r.status)

/-- Constraint a single operation satisfies when the chain gateway is
consistent: every inserted status is `pending` or the hash's one final
outcome, and every reconciliation report carries that final outcome, which is
terminal (a receipt exists once the confirmation wait has succeeded). -/
def opConsistent (final : String → TxStatus) : TxOp → Prop
  | .store _ _ _ _ h _ _ _ _ _ st => st = .pending ∨ st = final h
  | .reconcile _ _ none => True
  | .reconcile h _ (some det) => det.status = final h ∧ (final h).isTerminal = true

instance instDecOpConsistent (final : String → TxStatus) :
    ∀ op : TxOp, Decidable (opConsistent final op)
  | .store _ _ _ _ h _ _ _ _ _ st =>
    inferInstanceAs (Decidable (st = .pending ∨ st = final h))
  | .reconcile _ _ none => inferInstanceAs (Decidable True)
  | .reconcile h _ (some det) =>
    inferInstanceAs (Decidable (det.status = final h ∧ (final h).isTerminal = true))

/-- A chain-consistent trace. -/
def OpsConsistent (final : String → TxStatus) (ops : List TxOp) : Prop :=
  ∀ op ∈ ops, opConsistent final op

/-- A store in which every row is still pending or already carries its hash's
final outcome. -/
def StoreConsistent (final : String → TxStatus) (s : TxStore) : Prop :=
  ∀ r ∈ s, r.status = .pending ∨ r.status = final r.hash

instance (final : String → TxStatus) (ops : List TxOp) : Decidable (OpsConsistent final ops) :=
  inferInstanceAs (Decidable (∀ op ∈ ops, opConsistent final op))

instance (final : String → TxStatus) (s : TxStore) : Decidable (StoreConsistent final s) :=
  inferInstanceAs (Decidable (∀ r ∈ s, r.status = .pending ∨ r.status = final r.hash))

set_option maxRecDepth 100000

deriving instance DecidableEq for Except

theorem b64Index_b64Char : ∀ n, n < 64 → b64Index (b64Char n) = some n := by decide

theorem isB64Char_b64Char {n : Nat} (h : n < 64) : isB64Char (b64Char n) = true := by
  simp [isB64Char, b64Index_b64Char n h]

theorem b64IndexD_b64Char {n : Nat} (h : n < 64) : b64IndexD (b64Char n) = n := by
  simp [b64IndexD, b64Index_b64Char n h]

theorem isB64Char_pad : isB64Char '=' = false := by decide

/-- Round trip: decoding an encoded well-formed byte string gives it back. -/
theorem decodeB64_encodeB64 (bs : Bytes) (h : BytesWF bs) :
    decodeB64 (encodeB64 bs) = bs := by
  unfold decodeB64
  induction bs using encodeB64.induct with
  | case1 => simp [encodeB64, decodeB64Run]
  | case2 b0 =>
    have hb0 : b0 < 256 := h b0 (by simp)
    have h0 : b0 / 4 < 64 := by omega
    have h1 : b0 % 4 * 16 < 64 := by omega
    simp [encodeB64, List.filter, isB64Char_b64Char h0, isB64Char_b64Char h1, isB64Char_pad,
      decodeB64Run, b64IndexD_b64Char h0, b64IndexD_b64Char h1]
    omega
  | case3 b0 b1 =>
    have hb0 : b0 < 256 := h b0 (by simp)
    have hb1 : b1 < 256 := h b1 (by simp)
    have h0 : b0 / 4 < 64 := by omega
    have h1 : b0 % 4 * 16 + b1 / 16 < 64 := by omega
    have h2 : b1 % 16 * 4 < 64 := by omega
    simp [encodeB64, List.filter, isB64Char_b64Char h0, isB64Char_b64Char h1,
      isB64Char_b64Char h2, isB64Char_pad, decodeB64Run,
      b64IndexD_b64Char h0, b64IndexD_b64Char h1, b64IndexD_b64Char h2]
    omega
  | case4 b0 b1 b2 rest ih =>
    have hb0 : b0 < 256 := h b0 (by simp)
    have hb1 : b1 < 256 := h b1 (by simp)
    have hb2 : b2 < 256 := h b2 (by simp)
    have hrest : BytesWF rest := fun b hb => h b (by simp [hb])
    have h0 : b0 / 4 < 64 := by omega
    have h1 : b0 % 4 * 16 + b1 / 16 < 64 := by omega
    have h2 : b1 % 16 * 4 + b2 / 64 < 64 := by omega
    have h3 : b2 % 64 < 64 := by omega
    have ih := ih hrest
    simp only [encodeB64, List.filter, isB64Char_b64Char h0, isB64Char_b64Char h1,
      isB64Char_b64Char h2, isB64Char_b64Char h3]
    simp only [decodeB64Run, b64IndexD_b64Char h0, b64IndexD_b64Char h1,
      b64IndexD_b64Char h2, b64IndexD_b64Char h3, ih]
    have e0 : b0 / 4 * 4 + (b0 % 4 * 16 + b1 / 16) / 16 = b0 := by omega
    have e1 : (b0 % 4 * 16 + b1 / 16) % 16 * 16 + (b1 % 16 * 4 + b2 / 64) / 4 = b1 := by omega
    have e2 : (b1 % 16 * 4 + b2 / 64) % 4 * 64 + b2 % 64 = b2 := by omega
    rw [e0, e1, e2]

/-- Encoding never shrinks: the token has at least as many characters as the
input has bytes. -/
theorem length_encodeB64 (bs : Bytes) : bs.length ≤ (encodeB64 bs).length := by
  induction bs using encodeB64.induct with
  | case1 => simp [encodeB64]
  | case2 b0 => simp [encodeB64]
  | case3 b0 b1 => simp [encodeB64]
  | case4 b0 b1 b2 rest ih => simpa [encodeB64] using by omega

namespace Encryption

theorem gcmDecrypt_gcmEncrypt (key iv : Bytes) (j : Nat) (text : Bytes) (h : BytesWF text) :
    gcmDecrypt key iv j (gcmEncrypt key iv j text) = text := by
  induction text generalizing j with
  | nil => rfl
  | cons b bs ih =>
    have hb : b < 256 := h b (by simp)
    have hks : ksByte key iv j < 256 := Nat.mod_lt _ (by norm_num)
    have htl : BytesWF bs := fun x hx => h x (by simp [hx])
    simp only [gcmEncrypt, gcmDecrypt, ih j.succ htl, List.cons.injEq, and_true]
    omega

theorem bytesWF_gcmEncrypt (key iv : Bytes) (j : Nat) (text : Bytes) :
    BytesWF (gcmEncrypt key iv j text) := by
  induction text generalizing j with
  | nil => intro b hb; simp [gcmEncrypt] at hb
  | cons b bs ih =>
    intro x hx
    simp only [gcmEncrypt, List.mem_cons] at hx
    rcases hx with hx | hx
    · omega
    · exact ih (j + 1) x hx

theorem bytesWF_authTag (key iv ct : Bytes) : BytesWF (authTag key iv ct) := by
  intro b hb
  simp only [authTag, List.mem_map] at hb
  obtain ⟨j, _, rfl⟩ := hb
  omega

theorem length_authTag (key iv ct : Bytes) : (authTag key iv ct).length = 16 := by
  simp [authTag, TAG_LENGTH]

/-- Slicing the concatenated token buffer at the fixed offsets recovers its
four components. -/
theorem token_slices (salt iv tag ct : Bytes)
    (hsalt : salt.length = 64) (hiv : iv.length = 16) (htag : tag.length = 16) :
    (salt ++ iv ++ tag ++ ct).take SALT_LENGTH = salt ∧
    ((salt ++ iv ++ tag ++ ct).drop SALT_LENGTH).take IV_LENGTH = iv ∧
    ((salt ++ iv ++ tag ++ ct).drop (SALT_LENGTH + IV_LENGTH)).take TAG_LENGTH = tag ∧
    (salt ++ iv ++ tag ++ ct).drop (SALT_LENGTH + IV_LENGTH + TAG_LENGTH) = ct := by
  have hassoc : salt ++ iv ++ tag ++ ct = salt ++ (iv ++ (tag ++ ct)) := by
    simp [List.append_assoc]
  refine ⟨?_, ?_, ?_, ?_⟩
  · rw [hassoc]
    exact List.take_left' (by simp [SALT_LENGTH, hsalt])
  · rw [hassoc, @List.drop_left' Nat salt (iv ++ (tag ++ ct)) SALT_LENGTH
      (by simp [SALT_LENGTH, hsalt])]
    exact List.take_left' (by simp [IV_LENGTH, hiv])
  · rw [show salt ++ iv ++ tag ++ ct = (salt ++ iv) ++ (tag ++ ct) by
      simp [List.append_assoc]]
    rw [@List.drop_left' Nat (salt ++ iv) (tag ++ ct) (SALT_LENGTH + IV_LENGTH)
      (by simp [SALT_LENGTH, IV_LENGTH, hsalt, hiv])]
    exact List.take_left' (by simp [TAG_LENGTH, htag])
  · rw [show salt ++ iv ++ tag ++ ct = (salt ++ iv ++ tag) ++ ct by
      simp [List.append_assoc]]
    exact List.drop_left' (by simp [SALT_LENGTH, IV_LENGTH, TAG_LENGTH, hsalt, hiv, htag])

/-- Round trip of the encryption module, for any fresh salt and IV of the
lengths `randomBytes` is called with. -/
theorem decrypt_encrypt (secret salt iv text : Bytes)
    (hsalt : salt.length = 64) (hiv : iv.length = 16)
    (hsaltWF : BytesWF salt) (hivWF : BytesWF iv) (htext : BytesWF text) :
    decrypt secret (encrypt secret salt iv text) = .ok text := by
  have hbufWF : BytesWF (salt ++ iv ++ authTag (deriveKey secret salt) iv
      (gcmEncrypt (deriveKey secret salt) iv 0 text) ++
      gcmEncrypt (deriveKey secret salt) iv 0 text) := by
    intro b hb
    simp only [List.append_assoc, List.mem_append] at hb
    rcases hb with hb | hb | hb | hb
    · exact hsaltWF b hb
    · exact hivWF b hb
    · exact bytesWF_authTag _ _ _ b hb
    · exact bytesWF_gcmEncrypt _ _ _ _ b hb
  have hdec := decodeB64_encodeB64 _ hbufWF
  obtain ⟨e1, e2, e3, e4⟩ := token_slices salt iv
    (authTag (deriveKey secret salt) iv (gcmEncrypt (deriveKey secret salt) iv 0 text))
    (gcmEncrypt (deriveKey secret salt) iv 0 text) hsalt hiv (length_authTag _ _ _)
  simp only [encrypt, decrypt, hdec, e1, e2, e3, e4, hiv]
  norm_num
  exact gcmDecrypt_gcmEncrypt _ iv 0 text htext

end Encryption

/-! ## Shared helper lemmas -/

/-- `strOfBytes` undoes `strBytes`. -/
theorem strOfBytes_strBytes (p : String) : strOfBytes (strBytes p) = p := by
  rw [strOfBytes, strBytes, List.map_map]
  exact congrArg String.mk (List.map_id'' (fun c => Char.ofNat_toNat c) p.data)

/-- The bytes of a byte-representable string are well-formed. -/
theorem bytesWF_strBytes (p : String) (hp : ∀ c ∈ p.data, c.toNat < 256) :
    BytesWF (strBytes p) := by
  intro b hb
  simp only [strBytes, List.mem_map] at hb
  obtain ⟨c, hc, rfl⟩ := hb
  exact hp c hc

/-- A `storeTransaction` call only ever appends to the store. -/
theorem storeTransaction_snd_append (dbFault : Option PgError) (s : TxStore)
    (nextId now walletId : Nat) (hash fromAddr toAddr amount : String)
    (gasPrice gasUsed : Option String) (status : TxStatus) :
    ∃ extra, (WalletService.storeTransaction dbFault s nextId now walletId hash
      fromAddr toAddr amount gasPrice gasUsed status).2 = s ++ extra := by
  unfold WalletService.storeTransaction TransactionRepository.createTransaction
  match dbFault with
  | some e =>
    by_cases he : e.code = "23505" <;> exact ⟨[], by simp [he]⟩
  | none =>
    by_cases hany : s.any (fun r => r.hash = hash)
    · exact ⟨[], by simp [hany, PgError.code]⟩
    · refine ⟨[TxRow.mk nextId walletId hash fromAddr toAddr amount gasPrice gasUsed status none none now], ?_⟩
      simp [hany]

/-- Ingesting chain history only ever appends to the store. -/
theorem ingestHistory_append (txs : List WalletService.ChainHistoryTx) (ts : TxStore)
    (wid nid now : Nat) :
    ∃ extra, WalletService.ingestHistory ts wid txs nid now = ts ++ extra := by
  induction txs generalizing ts nid with
  | nil => exact ⟨[], by simp [WalletService.ingestHistory]⟩
  | cons tx txs ih =>
    have hstep : WalletService.ingestHistory ts wid (tx :: txs) nid now =
        WalletService.ingestHistory
          ((WalletService.storeTransaction none ts nid now wid tx.hash tx.fromAddr
            tx.toAddr tx.value tx.gasPrice tx.gasUsed tx.status).2) wid txs (nid + 1) now := rfl
    obtain ⟨e1, he1⟩ := storeTransaction_snd_append none ts nid now wid tx.hash tx.fromAddr
      tx.toAddr tx.value tx.gasPrice tx.gasUsed tx.status
    obtain ⟨e2, he2⟩ := ih ((WalletService.storeTransaction none ts nid now wid tx.hash
      tx.fromAddr tx.toAddr tx.value tx.gasPrice tx.gasUsed tx.status).2) (nid + 1)
    exact ⟨e1 ++ e2, by rw [hstep, he2, he1, List.append_assoc]⟩

/-- A hash present in the store makes `findByHash` succeed. -/
theorem findByHash_isSome_of_mem {s : TxStore} {hash : String}
    (h : ∃ r ∈ s, r.hash = hash) :
    (TransactionRepository.findByHash s hash).isSome := by
  rw [TransactionRepository.findByHash, List.find?_isSome]
  obtain ⟨r, hr, hh⟩ := h
  exact ⟨r, hr, by simp [hh]⟩

/-! ## Claim theorems -/

/-- C2: for every plaintext string P (with fresh random salt and nonce of the
lengths `encrypt` generates internally), `decrypt(encrypt(P))` returns P. -/
theorem C2_decrypt_encrypt_roundtrip (secret salt iv : Bytes) (p : String)
    (hsalt : salt.length = 64) (hiv : iv.length = 16)
    (hsaltWF : BytesWF salt) (hivWF : BytesWF iv)
    (hp : ∀ c ∈ p.data, c.toNat < 256) :
    (Encryption.decrypt secret (Encryption.encrypt secret salt iv (strBytes p))).map
      strOfBytes = .ok p := by
  rw [Encryption.decrypt_encrypt secret salt iv _ hsalt hiv hsaltWF hivWF
    (bytesWF_strBytes p hp)]
  simp [Except.map, strOfBytes_strBytes]

/-- Witness for C2 at a concrete secret, salt, IV and plaintext. -/
theorem C2_decrypt_encrypt_roundtrip_witness :
    (Encryption.decrypt [1, 2, 3]
      (Encryption.encrypt [1, 2, 3] (List.range 64) ((List.range 16).map (fun j => j + 100))
        (strBytes "0xabc123"))).map strOfBytes = .ok "0xabc123" :=
  C2_decrypt_encrypt_roundtrip [1, 2, 3] (List.range 64)
    ((List.range 16).map (fun j => j + 100)) "0xabc123"
    (by decide) (by decide) (by decide) (by decide) (by decide)

/-- C5 (amended): for every token that is malformed (decoded buffer too short
to contain an IV) or tampered (stored tag differing from the tag recomputed
over its own salt, IV and ciphertext slices), `decrypt` throws — it never
returns a plaintext — but the thrown error is the crypto layer's
`TypeError`/`Error`, not a `DecryptionError` class, which the application
does not define. -/
theorem C5_tampered_decrypt_fails (secret : Bytes) (token : List Char)
    (h : (((decodeB64 token).drop Encryption.SALT_LENGTH).take Encryption.IV_LENGTH).length = 0 ∨
      Encryption.authTag
        (Encryption.deriveKey secret ((decodeB64 token).take Encryption.SALT_LENGTH))
        (((decodeB64 token).drop Encryption.SALT_LENGTH).take Encryption.IV_LENGTH)
        ((decodeB64 token).drop
          (Encryption.SALT_LENGTH + Encryption.IV_LENGTH + Encryption.TAG_LENGTH)) ≠
      ((decodeB64 token).drop
        (Encryption.SALT_LENGTH + Encryption.IV_LENGTH)).take Encryption.TAG_LENGTH) :
    ∃ f : Encryption.DecryptFailure,
      Encryption.decrypt secret token = .error f ∧
      f.jsName ≠ "DecryptionError" ∧
      ∀ pt, Encryption.decrypt secret token ≠ .ok pt := by
  by_cases hlen :
      (((decodeB64 token).drop Encryption.SALT_LENGTH).take Encryption.IV_LENGTH).length = 0
  · refine ⟨.invalidIV, ?_, by decide, ?_⟩
    · simp only [Encryption.decrypt]
      rw [if_pos hlen]
    · intro pt
      simp only [Encryption.decrypt]
      rw [if_pos hlen]
      simp
  · have htag := h.resolve_left hlen
    refine ⟨.authFailed, ?_, by decide, ?_⟩
    · simp only [Encryption.decrypt]
      rw [if_neg hlen, if_pos htag]
    · intro pt
      simp only [Encryption.decrypt]
      rw [if_neg hlen, if_pos htag]
      simp

/-- Witness for C5 at the malformed token of the repository's own test
(`decrypt('invalid-data')` is expected to throw). -/
theorem C5_tampered_decrypt_fails_witness :
    ∃ f : Encryption.DecryptFailure,
      Encryption.decrypt [1, 2, 3] ("invalid-data".data) = .error f ∧
      f.jsName ≠ "DecryptionError" ∧
      ∀ pt, Encryption.decrypt [1, 2, 3] ("invalid-data".data) ≠ .ok pt :=
  C5_tampered_decrypt_fails [1, 2, 3] ("invalid-data".data) (by decide)

/-- C5 counterexample to the claim as stated: on a malformed token `decrypt`
does fail, but with the crypto layer's error — no `DecryptionError` class
exists anywhere in the application's error module. -/
theorem C5_no_decryption_error_class :
    Encryption.decrypt [1, 2, 3] ("invalid-data".data) = .error .invalidIV ∧
    Encryption.DecryptFailure.jsName .invalidIV ≠ "DecryptionError" ∧
    ∀ c : ErrorClass, c.className ≠ "DecryptionError" := by
  refine ⟨by decide, by decide, fun c => by cases c <;> decide⟩

/-- C6: inserting a Transaction whose hash already exists resolves to the
pre-existing row, unchanged store and no error, while any other insert
failure still surfaces as an error. -/
theorem C6_duplicate_insert_returns_existing (s : TxStore) (nextId now walletId : Nat)
    (hash fromAddr toAddr amount : String) (gasPrice gasUsed : Option String)
    (status : TxStatus) (h : ∃ r ∈ s, r.hash = hash) :
    (∃ r, r ∈ s ∧ r.hash = hash ∧
      WalletService.storeTransaction none s nextId now walletId hash fromAddr toAddr
        amount gasPrice gasUsed status = (.ok (some r), s)) ∧
    ∀ e : PgError, e.code ≠ "23505" →
      WalletService.storeTransaction (some e) s nextId now walletId hash fromAddr toAddr
        amount gasPrice gasUsed status
        = (.error (JsError.generic "Failed to store transaction"), s) := by
  constructor
  · have hsome := findByHash_isSome_of_mem h
    obtain ⟨r, hr⟩ := Option.isSome_iff_exists.mp hsome
    have hr2 : List.find? (fun x => decide (x.hash = hash)) s = some r := hr
    have hmem : r ∈ s := List.mem_of_find?_eq_some hr2
    have hp := @List.find?_some TxRow (fun x => decide (x.hash = hash)) r s hr2
    have hhash : r.hash = hash := of_decide_eq_true hp
    have hany : s.any (fun r => r.hash = hash) = true := by
      rw [List.any_eq_true]
      exact ⟨r, hmem, by simp [hhash]⟩
    refine ⟨r, hmem, hhash, ?_⟩
    simp [WalletService.storeTransaction, TransactionRepository.createTransaction, hany,
      PgError.code, TransactionRepository.findByHash, hr2]
  · intro e he
    simp [WalletService.storeTransaction, TransactionRepository.createTransaction, he]

/-- Witness for C6 on a one-row store holding the hash being re-inserted. -/
theorem C6_duplicate_insert_returns_existing_witness :
    (∃ r, r ∈ ([TxRow.mk 1 5 "0xh" "0xa" "0xb" "1.0" none none .pending none none 10] : TxStore) ∧
      r.hash = "0xh" ∧
      WalletService.storeTransaction none
        [TxRow.mk 1 5 "0xh" "0xa" "0xb" "1.0" none none .pending none none 10]
        2 11 5 "0xh" "0xa" "0xb" "1.0" none none .confirmed
        = (.ok (some r), [TxRow.mk 1 5 "0xh" "0xa" "0xb" "1.0" none none .pending none none 10])) ∧
    ∀ e : PgError, e.code ≠ "23505" →
      WalletService.storeTransaction (some e)
        [TxRow.mk 1 5 "0xh" "0xa" "0xb" "1.0" none none .pending none none 10]
        2 11 5 "0xh" "0xa" "0xb" "1.0" none none .confirmed
        = (.error (JsError.generic "Failed to store transaction"),
           [TxRow.mk 1 5 "0xh" "0xa" "0xb" "1.0" none none .pending none none 10]) :=
  C6_duplicate_insert_returns_existing
    [TxRow.mk 1 5 "0xh" "0xa" "0xb" "1.0" none none .pending none none 10]
    2 11 5 "0xh" "0xa" "0xb" "1.0" none none .confirmed (by decide)

/-- C10: a `storeTransaction` call whose hash already exists leaves the store
(and hence every field of the existing row) entirely unchanged, and history
ingestion only appends rows, never touching existing ones — in particular the
lookup of an existing hash is the same before and after a sync, so a locally
pending row stays pending through ingestion. -/
theorem C10_duplicate_store_is_frame (ts : TxStore) (nextId now walletId : Nat)
    (hash fromAddr toAddr amount : String) (gasPrice gasUsed : Option String)
    (status : TxStatus) (h : ∃ r ∈ ts, r.hash = hash) :
    (WalletService.storeTransaction none ts nextId now walletId hash fromAddr toAddr
      amount gasPrice gasUsed status).2 = ts ∧
    ∀ (wid : Nat) (txs : List WalletService.ChainHistoryTx) (nid n2 : Nat),
      ∃ extra, WalletService.ingestHistory ts wid txs nid n2 = ts ++ extra ∧
        TransactionRepository.findByHash (WalletService.ingestHistory ts wid txs nid n2) hash =
          TransactionRepository.findByHash ts hash := by
  have hsome := findByHash_isSome_of_mem h
  obtain ⟨r, hr⟩ := Option.isSome_iff_exists.mp hsome
  have hany : ts.any (fun r => r.hash = hash) = true := by
    rw [List.any_eq_true]
    obtain ⟨r0, hr0, hh0⟩ := h
    exact ⟨r0, hr0, by simp [hh0]⟩
  constructor
  · simp [WalletService.storeTransaction, TransactionRepository.createTransaction, hany,
      PgError.code]
  · intro wid txs nid n2
    obtain ⟨extra, hex⟩ := ingestHistory_append txs ts wid nid n2
    refine ⟨extra, hex, ?_⟩
    have hr2 : List.find? (fun x => decide (x.hash = hash)) ts = some r := hr
    rw [hex, TransactionRepository.findByHash, TransactionRepository.findByHash,
      List.find?_append, hr2]
    rfl

/-- Witness for C10: a pending row whose hash the chain history re-reports as
confirmed stays exactly as it was. -/
theorem C10_duplicate_store_is_frame_witness :
    (WalletService.storeTransaction none
      [TxRow.mk 1 5 "0xh" "0xa" "0xb" "1.0" none none .pending none none 10]
      2 11 5 "0xh" "0xa" "0xb" "1.0" none (some "21000") .confirmed).2
      = [TxRow.mk 1 5 "0xh" "0xa" "0xb" "1.0" none none .pending none none 10] ∧
    ∀ (wid : Nat) (txs : List WalletService.ChainHistoryTx) (nid n2 : Nat),
      ∃ extra, WalletService.ingestHistory
          [TxRow.mk 1 5 "0xh" "0xa" "0xb" "1.0" none none .pending none none 10]
          wid txs nid n2
          = [TxRow.mk 1 5 "0xh" "0xa" "0xb" "1.0" none none .pending none none 10] ++ extra ∧
        TransactionRepository.findByHash
          (WalletService.ingestHistory
            [TxRow.mk 1 5 "0xh" "0xa" "0xb" "1.0" none none .pending none none 10]
            wid txs nid n2) "0xh" =
        TransactionRepository.findByHash
          [TxRow.mk 1 5 "0xh" "0xa" "0xb" "1.0" none none .pending none none 10] "0xh" :=
  C10_duplicate_store_is_frame
    [TxRow.mk 1 5 "0xh" "0xa" "0xb" "1.0" none none .pending none none 10]
    2 11 5 "0xh" "0xa" "0xb" "1.0" none (some "21000") .confirmed (by decide)

/-- C9: the GraphQL context builder never raises — a missing header or a
failed token verification both yield a context with a null user — and the
authentication failure is raised only by `requireAuth` on a null-user
context, which otherwise returns the user. -/
theorem C9_authenticateGraphQL_never_throws
    (verify : String → Except JsError UserClaims) (req : GqlRequest) (ctx : AuthContext) :
    (req.authorization = none → authenticateGraphQL verify req = { user := none }) ∧
    (∀ h e, req.authorization = some h → verify (stripBearer h) = .error e →
      authenticateGraphQL verify req = { user := none }) ∧
    (∀ h u, req.authorization = some h → verify (stripBearer h) = .ok u →
      authenticateGraphQL verify req = { user := some u }) ∧
    (ctx.user = none → requireAuth ctx = .error (JsError.generic "Authentication required")) ∧
    (∀ u, ctx.user = some u → requireAuth ctx = .ok u) := by
  refine ⟨?_, ?_, ?_, ?_, ?_⟩
  · intro hnone
    simp [authenticateGraphQL, hnone]
  · intro h e hsome herr
    simp [authenticateGraphQL, hsome, herr]
  · intro h u hsome hok
    simp [authenticateGraphQL, hsome, hok]
  · intro hnone
    simp [requireAuth, hnone]
  · intro u hsome
    simp [requireAuth, hsome]

/-- Witness for C9, covering all five branches at concrete inputs. -/
theorem C9_authenticateGraphQL_never_throws_witness :
    authenticateGraphQL (fun _ => .error (JsError.generic "Invalid or expired token"))
      ⟨none⟩ = { user := none } ∧
    authenticateGraphQL (fun _ => .error (JsError.generic "Invalid or expired token"))
      ⟨some "Bearer tok"⟩ = { user := none } ∧
    authenticateGraphQL (fun _ => .ok ⟨7, "alice"⟩) ⟨some "Bearer tok"⟩
      = { user := some ⟨7, "alice"⟩ } ∧
    requireAuth ⟨none⟩ = .error (JsError.generic "Authentication required") ∧
    requireAuth ⟨some ⟨7, "alice"⟩⟩ = .ok ⟨7, "alice"⟩ :=
  ⟨(C9_authenticateGraphQL_never_throws _ ⟨none⟩ ⟨none⟩).1 rfl,
   (C9_authenticateGraphQL_never_throws _ ⟨some "Bearer tok"⟩ ⟨none⟩).2.1
     "Bearer tok" (JsError.generic "Invalid or expired token") rfl rfl,
   (C9_authenticateGraphQL_never_throws _ ⟨some "Bearer tok"⟩ ⟨none⟩).2.2.1
     "Bearer tok" ⟨7, "alice"⟩ rfl rfl,
   (C9_authenticateGraphQL_never_throws (fun _ => .ok ⟨7, "alice"⟩) ⟨none⟩ ⟨none⟩).2.2.2.1 rfl,
   (C9_authenticateGraphQL_never_throws (fun _ => .ok ⟨7, "alice"⟩) ⟨none⟩
     ⟨some ⟨7, "alice"⟩⟩).2.2.2.2 ⟨7, "alice"⟩ rfl⟩

/-- C3 (amended): a `sendFunds` whose parsed amount exceeds the sender's
balance fails before persistence and broadcast — the transaction store and
the network are unchanged — but the error the caller sees is the generic
`Error('Insufficient balance')` re-thrown by the service, not an
`InsufficientFundsError` instance (whose `name` would be
`InsufficientFundsError`). -/
theorem C3_insufficient_balance_rejected (secret : Bytes) (env : BlockchainService.ChainEnv)
    (ws : WalletStore) (ts : TxStore) (chain : List BlockchainService.BroadcastTx)
    (walletId userId : Nat) (toAddress amount : String) (nextId now : Nat)
    (dbFault : Option PgError) (w : WalletRow) (pkB : Bytes) (amt : Nat)
    (hw : WalletRepository.findWithPrivateKey ws walletId userId = some w)
    (hdec : Encryption.decrypt secret w.encryptedPrivateKey.data = .ok pkB)
    (haddr : BlockchainService.isAddress toAddress = true)
    (hamt : BlockchainService.parseEther amount = some amt)
    (hbal : env.balanceWei < amt) :
    WalletService.sendFunds secret env ws ts chain walletId userId toAddress amount
      nextId now dbFault
      = (.error (JsError.generic "Insufficient balance"), ts, chain) ∧
    (JsError.generic "Insufficient balance").name ≠
      ErrorClass.className .insufficientFundsError := by
  refine ⟨?_, by decide⟩
  simp [WalletService.sendFunds, hw, hdec, BlockchainService.sendTransaction, haddr, hamt,
    hbal, JsError.generic]

/-- Witness for C3 on a concrete wallet, zero balance and a 1-ether send. -/
theorem C3_insufficient_balance_rejected_witness :
    WalletService.sendFunds [1, 2, 3]
      (BlockchainService.ChainEnv.mk "0xaaaaaaaaaaaaaaaaaaaaaaaaaaaaaaaaaaaaaaaa" 0 "0xh1" 21000 none)
      [WalletRow.mk 1 7 "0xaaaaaaaaaaaaaaaaaaaaaaaaaaaaaaaaaaaaaaaa"
        (String.mk (Encryption.encrypt [1, 2, 3] (List.range 64)
          ((List.range 16).map (fun j => j + 100)) (strBytes "0xabc123"))) "sepolia" 5 5]
      [] [] 1 7 "0xbbbbbbbbbbbbbbbbbbbbbbbbbbbbbbbbbbbbbbbb" "1.0" 2 6 none
      = (.error (JsError.generic "Insufficient balance"), ([] : TxStore),
         ([] : List BlockchainService.BroadcastTx)) ∧
    (JsError.generic "Insufficient balance").name ≠
      ErrorClass.className .insufficientFundsError :=
  C3_insufficient_balance_rejected [1, 2, 3]
    (BlockchainService.ChainEnv.mk "0xaaaaaaaaaaaaaaaaaaaaaaaaaaaaaaaaaaaaaaaa" 0 "0xh1" 21000 none)
    [WalletRow.mk 1 7 "0xaaaaaaaaaaaaaaaaaaaaaaaaaaaaaaaaaaaaaaaa"
      (String.mk (Encryption.encrypt [1, 2, 3] (List.range 64)
        ((List.range 16).map (fun j => j + 100)) (strBytes "0xabc123"))) "sepolia" 5 5]
    [] [] 1 7 "0xbbbbbbbbbbbbbbbbbbbbbbbbbbbbbbbbbbbbbbbb" "1.0" 2 6 none
    (WalletRow.mk 1 7 "0xaaaaaaaaaaaaaaaaaaaaaaaaaaaaaaaaaaaaaaaa"
      (String.mk (Encryption.encrypt [1, 2, 3] (List.range 64)
        ((List.range 16).map (fun j => j + 100)) (strBytes "0xabc123"))) "sepolia" 5 5)
    (strBytes "0xabc123") (10 ^ 18)
    (by decide) (by decide) (by decide) (by decide) (by decide)

/-- C3 counterexample to the claim as stated: the underfunded send does fail
and creates no row, but the raised error is a generic `Error`, not an
`InsufficientFundsError`. -/
theorem C3_generic_error_not_class :
    WalletService.sendFunds [1, 2, 3]
      (BlockchainService.ChainEnv.mk "0xaaaaaaaaaaaaaaaaaaaaaaaaaaaaaaaaaaaaaaaa" 0 "0xh1" 21000 none)
      [WalletRow.mk 1 7 "0xaaaaaaaaaaaaaaaaaaaaaaaaaaaaaaaaaaaaaaaa"
        (String.mk (Encryption.encrypt [1, 2, 3] (List.range 64)
          ((List.range 16).map (fun j => j + 100)) (strBytes "0xabc123"))) "sepolia" 5 5]
      [] [] 1 7 "0xbbbbbbbbbbbbbbbbbbbbbbbbbbbbbbbbbbbbbbbb" "1.0" 2 6 none
      = (.error (JsError.mk "Error" "Insufficient balance"), ([] : TxStore),
         ([] : List BlockchainService.BroadcastTx)) ∧
    "Error" ≠ ErrorClass.className .insufficientFundsError := by
  exact ⟨by decide, by decide⟩

/-- C4 (amended): a `sendFunds` to a recipient failing the address-format
check fails before any network interaction — no balance query, broadcast or
row creation; the broadcast list and the store are unchanged — but the error
is the generic `Error('Invalid recipient address')`, not an
`InvalidAddressError` instance. -/
theorem C4_invalid_address_rejected (secret : Bytes) (env : BlockchainService.ChainEnv)
    (ws : WalletStore) (ts : TxStore) (chain : List BlockchainService.BroadcastTx)
    (walletId userId : Nat) (toAddress amount : String) (nextId now : Nat)
    (dbFault : Option PgError) (w : WalletRow) (pkB : Bytes)
    (hw : WalletRepository.findWithPrivateKey ws walletId userId = some w)
    (hdec : Encryption.decrypt secret w.encryptedPrivateKey.data = .ok pkB)
    (haddr : BlockchainService.isAddress toAddress = false) :
    WalletService.sendFunds secret env ws ts chain walletId userId toAddress amount
      nextId now dbFault
      = (.error (JsError.generic "Invalid recipient address"), ts, chain) ∧
    (JsError.generic "Invalid recipient address").name ≠
      ErrorClass.className .invalidAddressError := by
  refine ⟨?_, by decide⟩
  simp [WalletService.sendFunds, hw, hdec, BlockchainService.sendTransaction, haddr,
    JsError.generic]

/-- Witness for C4 on a concrete wallet and the malformed recipient of the
spec's own scenario. -/
theorem C4_invalid_address_rejected_witness :
    WalletService.sendFunds [1, 2, 3]
      (BlockchainService.ChainEnv.mk "0xaaaaaaaaaaaaaaaaaaaaaaaaaaaaaaaaaaaaaaaa"
        (10 ^ 19) "0xh1" 21000 none)
      [WalletRow.mk 1 7 "0xaaaaaaaaaaaaaaaaaaaaaaaaaaaaaaaaaaaaaaaa"
        (String.mk (Encryption.encrypt [1, 2, 3] (List.range 64)
          ((List.range 16).map (fun j => j + 100)) (strBytes "0xabc123"))) "sepolia" 5 5]
      [] [] 1 7 "not-an-address" "1.0" 2 6 none
      = (.error (JsError.generic "Invalid recipient address"), ([] : TxStore),
         ([] : List BlockchainService.BroadcastTx)) ∧
    (JsError.generic "Invalid recipient address").name ≠
      ErrorClass.className .invalidAddressError :=
  C4_invalid_address_rejected [1, 2, 3]
    (BlockchainService.ChainEnv.mk "0xaaaaaaaaaaaaaaaaaaaaaaaaaaaaaaaaaaaaaaaa"
      (10 ^ 19) "0xh1" 21000 none)
    [WalletRow.mk 1 7 "0xaaaaaaaaaaaaaaaaaaaaaaaaaaaaaaaaaaaaaaaa"
      (String.mk (Encryption.encrypt [1, 2, 3] (List.range 64)
        ((List.range 16).map (fun j => j + 100)) (strBytes "0xabc123"))) "sepolia" 5 5]
    [] [] 1 7 "not-an-address" "1.0" 2 6 none
    (WalletRow.mk 1 7 "0xaaaaaaaaaaaaaaaaaaaaaaaaaaaaaaaaaaaaaaaa"
      (String.mk (Encryption.encrypt [1, 2, 3] (List.range 64)
        ((List.range 16).map (fun j => j + 100)) (strBytes "0xabc123"))) "sepolia" 5 5)
    (strBytes "0xabc123")
    (by decide) (by decide) (by decide)

/-- C4 counterexample to the claim as stated: the malformed-recipient send
does fail with no broadcast and no row, but the raised error is a generic
`Error`, not an `InvalidAddressError`. -/
theorem C4_generic_error_not_class :
    WalletService.sendFunds [1, 2, 3]
      (BlockchainService.ChainEnv.mk "0xaaaaaaaaaaaaaaaaaaaaaaaaaaaaaaaaaaaaaaaa"
        (10 ^ 19) "0xh1" 21000 none)
      [WalletRow.mk 1 7 "0xaaaaaaaaaaaaaaaaaaaaaaaaaaaaaaaaaaaaaaaa"
        (String.mk (Encryption.encrypt [1, 2, 3] (List.range 64)
          ((List.range 16).map (fun j => j + 100)) (strBytes "0xabc123"))) "sepolia" 5 5]
      [] [] 1 7 "not-an-address" "1.0" 2 6 none
      = (.error (JsError.mk "Error" "Invalid recipient address"), ([] : TxStore),
         ([] : List BlockchainService.BroadcastTx)) ∧
    "Error" ≠ ErrorClass.className .invalidAddressError := by
  exact ⟨by decide, by decide⟩

/-- The encrypted token is at least 96 characters long (64-byte salt, 16-byte
IV and 16-byte tag precede the ciphertext, and base64 never shrinks). -/
theorem encrypt_length_ge (secret salt iv text : Bytes)
    (hsalt : salt.length = 64) (hiv : iv.length = 16) :
    96 ≤ (Encryption.encrypt secret salt iv text).length := by
  unfold Encryption.encrypt
  refine le_trans ?_ (length_encodeB64 _)
  simp only [List.length_append, Encryption.length_authTag, hsalt, hiv]
  omega

/-- C1: wallet creation hands persistence nothing but the user id, the
address, the encrypted token and the network; the mnemonic is in the creation
response, and no read projection (`findByUserId`/`findByIdAndUserId` columns
or `findWithPrivateKey` columns) carries the mnemonic or the plaintext key. -/
theorem C1_no_secret_material_persisted (secret salt iv : Bytes) (ws : WalletStore)
    (nextId now userId : Nat) (g : WalletService.GeneratedWallet) (network : String)
    (hsalt : salt.length = 64) (hiv : iv.length = 16)
    (hpkLen : g.privateKey.length < 96)
    (hpkAddr : g.privateKey ≠ g.address) (hpkNet : g.privateKey ≠ network)
    (hm : ∀ m, g.mnemonic = some m → m.length < 96 ∧ m ≠ g.address ∧ m ≠ network) :
    (WalletService.createWallet secret salt iv ws nextId now userId g network).1.mnemonic
      = g.mnemonic ∧
    ((WalletService.createWallet secret salt iv ws nextId now userId g network).1.row).encryptedPrivateKey
      = String.mk (Encryption.encrypt secret salt iv (strBytes g.privateKey)) ∧
    (WalletService.createWallet secret salt iv ws nextId now userId g network).2
      = ws ++ [(WalletService.createWallet secret salt iv ws nextId now userId g network).1.row] ∧
    DBValue.strV g.privateKey ∉ WalletRepository.withKeyValues
      (WalletService.createWallet secret salt iv ws nextId now userId g network).1.row ∧
    DBValue.strV g.privateKey ∉ WalletRepository.publicValues
      (WalletService.createWallet secret salt iv ws nextId now userId g network).1.row ∧
    ∀ m, g.mnemonic = some m →
      DBValue.strV m ∉ WalletRepository.withKeyValues
        (WalletService.createWallet secret salt iv ws nextId now userId g network).1.row ∧
      DBValue.strV m ∉ WalletRepository.publicValues
        (WalletService.createWallet secret salt iv ws nextId now userId g network).1.row := by
  have htok : g.privateKey ≠
      String.mk (Encryption.encrypt secret salt iv (strBytes g.privateKey)) := by
    intro he
    have hlen := congrArg String.length he
    simp only [String.length_mk] at hlen
    have := encrypt_length_ge secret salt iv (strBytes g.privateKey) hsalt hiv
    omega
  refine ⟨rfl, rfl, rfl, ?_, ?_, ?_⟩
  · simp [WalletService.createWallet, WalletRepository.createWallet,
      WalletRepository.withKeyValues]
    exact ⟨hpkAddr, htok, hpkNet⟩
  · simp [WalletService.createWallet, WalletRepository.createWallet,
      WalletRepository.publicValues]
    exact ⟨hpkAddr, hpkNet⟩
  · intro m hmm
    obtain ⟨hmLen, hmAddr, hmNet⟩ := hm m hmm
    have hmTok : m ≠ String.mk (Encryption.encrypt secret salt iv (strBytes g.privateKey)) := by
      intro he
      have hlen := congrArg String.length he
      simp only [String.length_mk] at hlen
      have := encrypt_length_ge secret salt iv (strBytes g.privateKey) hsalt hiv
      omega
    constructor
    · simp [WalletService.createWallet, WalletRepository.createWallet,
        WalletRepository.withKeyValues]
      exact ⟨hmAddr, hmTok, hmNet⟩
    · simp [WalletService.createWallet, WalletRepository.createWallet,
        WalletRepository.publicValues]
      exact ⟨hmAddr, hmNet⟩

/-- Witness for C1 with a concrete generated wallet and mnemonic. -/
theorem C1_no_secret_material_persisted_witness :
    (WalletService.createWallet [1, 2, 3] (List.range 64)
      ((List.range 16).map (fun j => j + 100)) [] 1 5 7
      ⟨"0xaaaaaaaaaaaaaaaaaaaaaaaaaaaaaaaaaaaaaaaa", "0xabc123", some "alpha beta"⟩
      "sepolia").1.mnemonic = some "alpha beta" ∧
    (WalletService.createWallet [1, 2, 3] (List.range 64)
      ((List.range 16).map (fun j => j + 100)) [] 1 5 7
      ⟨"0xaaaaaaaaaaaaaaaaaaaaaaaaaaaaaaaaaaaaaaaa", "0xabc123", some "alpha beta"⟩
      "sepolia").1.row.encryptedPrivateKey
      = String.mk (Encryption.encrypt [1, 2, 3] (List.range 64)
          ((List.range 16).map (fun j => j + 100)) (strBytes "0xabc123")) ∧
    DBValue.strV "0xabc123" ∉ WalletRepository.withKeyValues
      (WalletService.createWallet [1, 2, 3] (List.range 64)
        ((List.range 16).map (fun j => j + 100)) [] 1 5 7
        ⟨"0xaaaaaaaaaaaaaaaaaaaaaaaaaaaaaaaaaaaaaaaa", "0xabc123", some "alpha beta"⟩
        "sepolia").1.row ∧
    DBValue.strV "alpha beta" ∉ WalletRepository.withKeyValues
      (WalletService.createWallet [1, 2, 3] (List.range 64)
        ((List.range 16).map (fun j => j + 100)) [] 1 5 7
        ⟨"0xaaaaaaaaaaaaaaaaaaaaaaaaaaaaaaaaaaaaaaaa", "0xabc123", some "alpha beta"⟩
        "sepolia").1.row := by
  have h := C1_no_secret_material_persisted [1, 2, 3] (List.range 64)
    ((List.range 16).map (fun j => j + 100)) [] 1 5 7
    ⟨"0xaaaaaaaaaaaaaaaaaaaaaaaaaaaaaaaaaaaaaaaa", "0xabc123", some "alpha beta"⟩
    "sepolia" (by decide) (by decide) (by decide) (by decide) (by decide)
    (fun m hm => by
      cases hm
      exact ⟨by decide, by decide, by decide⟩)
  exact ⟨h.1, h.2.1, h.2.2.2.1, (h.2.2.2.2.2 "alpha beta" rfl).1⟩

/-- Membership in a shorter prefix implies membership in a longer one. -/
theorem mem_take_mono {α : Type} {L : List α} {m n : Nat} {a : α}
    (hmn : m ≤ n) (ha : a ∈ L.take m) : a ∈ L.take n := by
  rw [show n = m + (n - m) by omega, List.take_add]
  exact List.mem_append_left _ ha

/-- A page starting at offset `m` sits inside the prefix of length `m + k`. -/
theorem mem_take_of_mem_drop_take {α : Type} {L : List α} {m k : Nat} {a : α}
    (ha : a ∈ (L.drop m).take k) : a ∈ L.take (m + k) := by
  rw [List.take_add]
  exact List.mem_append_right _ ha

/-- In a duplicate-free list, the prefix before `m` and the suffix from `m`
share no element. -/
theorem nodup_take_disjoint_drop {α : Type} {L : List α} (h : L.Nodup) (m : Nat)
    {a : α} (ht : a ∈ L.take m) (hd : a ∈ L.drop m) : False := by
  have hsplit : (L.take m ++ L.drop m).Nodup := by rwa [List.take_append_drop]
  exact (List.nodup_append.mp hsplit).2.2 ht hd

/-- Splicing the successive pages of size `k` back together yields exactly the
prefix of length `n * k`. -/
theorem pages_flatten {α : Type} (L : List α) (k : Nat) :
    ∀ n, (List.range n).flatMap (fun j => (L.drop (j * k)).take k) = L.take (n * k)
  | 0 => by simp
  | n + 1 => by
    rw [List.range_succ, List.flatMap_append, pages_flatten L k n]
    simp only [List.flatMap_cons, List.flatMap_nil, List.append_nil]
    rw [← List.take_add, Nat.succ_mul]

/-- C8: over an unchanged store, the pages `findByWalletId s wid k (j*k)` are
pairwise disjoint, each ordered newest-first by creation time, each containing
only that wallet's rows, and their union over successive offsets is exactly
the full set of that wallet's transactions. -/
theorem C8_pagination_stable (s : TxStore) (wid k n : Nat) (hnd : s.Nodup)
    (hn : (s.filter (fun r => r.walletId = wid)).length ≤ n * k) :
    (∀ i j, i ≠ j → ∀ r, r ∈ TransactionRepository.findByWalletId s wid k (i * k) →
      r ∉ TransactionRepository.findByWalletId s wid k (j * k)) ∧
    (∀ j, List.Pairwise (fun a b => b.createdAt ≤ a.createdAt)
      (TransactionRepository.findByWalletId s wid k (j * k))) ∧
    (∀ j r, r ∈ TransactionRepository.findByWalletId s wid k (j * k) → r.walletId = wid) ∧
    ((List.range n).flatMap
      (fun j => TransactionRepository.findByWalletId s wid k (j * k))).Perm
      (s.filter (fun r => r.walletId = wid)) := by
  have hfil : (s.filter (fun r => r.walletId = wid)).Nodup := hnd.filter _
  have hperm := List.mergeSort_perm (s.filter (fun r => r.walletId = wid))
    (fun a b : TxRow => decide (b.createdAt ≤ a.createdAt))
  have hndL : (TransactionRepository.sortByCreatedAtDesc
      (s.filter (fun r => r.walletId = wid))).Nodup := by
    rw [TransactionRepository.sortByCreatedAtDesc, List.Perm.nodup_iff hperm]
    exact hfil
  have hsorted : List.Pairwise (fun a b : TxRow => b.createdAt ≤ a.createdAt)
      (TransactionRepository.sortByCreatedAtDesc (s.filter (fun r => r.walletId = wid))) := by
    have hs := @List.sorted_mergeSort TxRow
      (fun a b : TxRow => decide (b.createdAt ≤ a.createdAt))
      (fun a b c h1 h2 => by
        simp only [decide_eq_true_eq] at h1 h2 ⊢
        omega)
      (fun a b => by
        simp only [Bool.or_eq_true, decide_eq_true_eq]
        omega)
      (s.filter (fun r => r.walletId = wid))
    exact hs.imp (fun h => of_decide_eq_true h)
  have hpage : ∀ j, TransactionRepository.findByWalletId s wid k (j * k) =
      ((TransactionRepository.sortByCreatedAtDesc
        (s.filter (fun r => r.walletId = wid))).drop (j * k)).take k := fun j => rfl
  have hkey : ∀ i j, i < j → ∀ r, r ∈ TransactionRepository.findByWalletId s wid k (i * k) →
      r ∈ TransactionRepository.findByWalletId s wid k (j * k) → False := by
    intro i j hij r hri hrj
    rw [hpage] at hri hrj
    have h1 : r ∈ (TransactionRepository.sortByCreatedAtDesc
        (s.filter (fun r => r.walletId = wid))).take (i * k + k) :=
      mem_take_of_mem_drop_take hri
    have h2 : r ∈ (TransactionRepository.sortByCreatedAtDesc
        (s.filter (fun r => r.walletId = wid))).take (j * k) :=
      mem_take_mono
        (le_trans (le_of_eq (Nat.succ_mul i k).symm) (Nat.mul_le_mul_right k hij)) h1
    exact nodup_take_disjoint_drop hndL (j * k) h2 (List.mem_of_mem_take hrj)
  refine ⟨?_, ?_, ?_, ?_⟩
  · intro i j hij r hri hrj
    rcases Nat.lt_or_ge i j with h | h
    · exact hkey i j h r hri hrj
    · exact hkey j i (by omega) r hrj hri
  · intro j
    rw [hpage]
    exact hsorted.sublist ((List.take_sublist _ _).trans (List.drop_sublist _ _))
  · intro j r hr
    rw [hpage] at hr
    have hrL : r ∈ TransactionRepository.sortByCreatedAtDesc
        (s.filter (fun r => r.walletId = wid)) :=
      ((List.take_sublist _ _).trans (List.drop_sublist _ _)).mem hr
    have : r ∈ s.filter (fun r => r.walletId = wid) := hperm.mem_iff.mp hrL
    exact of_decide_eq_true (List.mem_filter.mp this).2
  · have hflat := pages_flatten (TransactionRepository.sortByCreatedAtDesc
      (s.filter (fun r => r.walletId = wid))) k n
    have hlenL : (TransactionRepository.sortByCreatedAtDesc
        (s.filter (fun r => r.walletId = wid))).length ≤ n * k := by
      rw [TransactionRepository.sortByCreatedAtDesc, List.length_mergeSort]
      exact hn
    have : (List.range n).flatMap
        (fun j => TransactionRepository.findByWalletId s wid k (j * k)) =
        TransactionRepository.sortByCreatedAtDesc (s.filter (fun r => r.walletId = wid)) := by
      rw [show (fun j => TransactionRepository.findByWalletId s wid k (j * k)) =
        (fun j => ((TransactionRepository.sortByCreatedAtDesc
          (s.filter (fun r => r.walletId = wid))).drop (j * k)).take k) from rfl, hflat]
      exact List.take_of_length_le hlenL
    rw [this]
    exact hperm

/-- Witness for C8 on a three-row store, page size 2, two pages. -/
theorem C8_pagination_stable_witness :
    (∀ i j, i ≠ j → ∀ r, r ∈ TransactionRepository.findByWalletId
        [TxRow.mk 1 5 "0xh1" "a" "b" "1" none none .pending none none 10,
         TxRow.mk 2 5 "0xh2" "a" "b" "2" none none .pending none none 20,
         TxRow.mk 3 5 "0xh3" "a" "b" "3" none none .confirmed none none 15] 5 2 (i * 2) →
      r ∉ TransactionRepository.findByWalletId
        [TxRow.mk 1 5 "0xh1" "a" "b" "1" none none .pending none none 10,
         TxRow.mk 2 5 "0xh2" "a" "b" "2" none none .pending none none 20,
         TxRow.mk 3 5 "0xh3" "a" "b" "3" none none .confirmed none none 15] 5 2 (j * 2)) ∧
    (∀ j, List.Pairwise (fun a b => b.createdAt ≤ a.createdAt)
      (TransactionRepository.findByWalletId
        [TxRow.mk 1 5 "0xh1" "a" "b" "1" none none .pending none none 10,
         TxRow.mk 2 5 "0xh2" "a" "b" "2" none none .pending none none 20,
         TxRow.mk 3 5 "0xh3" "a" "b" "3" none none .confirmed none none 15] 5 2 (j * 2))) ∧
    (∀ j r, r ∈ TransactionRepository.findByWalletId
        [TxRow.mk 1 5 "0xh1" "a" "b" "1" none none .pending none none 10,
         TxRow.mk 2 5 "0xh2" "a" "b" "2" none none .pending none none 20,
         TxRow.mk 3 5 "0xh3" "a" "b" "3" none none .confirmed none none 15] 5 2 (j * 2) →
      r.walletId = 5) ∧
    ((List.range 2).flatMap
      (fun j => TransactionRepository.findByWalletId
        [TxRow.mk 1 5 "0xh1" "a" "b" "1" none none .pending none none 10,
         TxRow.mk 2 5 "0xh2" "a" "b" "2" none none .pending none none 20,
         TxRow.mk 3 5 "0xh3" "a" "b" "3" none none .confirmed none none 15] 5 2 (j * 2))).Perm
      ([TxRow.mk 1 5 "0xh1" "a" "b" "1" none none .pending none none 10,
        TxRow.mk 2 5 "0xh2" "a" "b" "2" none none .pending none none 20,
        TxRow.mk 3 5 "0xh3" "a" "b" "3" none none .confirmed none none 15].filter
        (fun r => r.walletId = 5)) :=
  C8_pagination_stable
    [TxRow.mk 1 5 "0xh1" "a" "b" "1" none none .pending none none 10,
     TxRow.mk 2 5 "0xh2" "a" "b" "2" none none .pending none none 20,
     TxRow.mk 3 5 "0xh3" "a" "b" "3" none none .confirmed none none 15] 5 2 2
    (by decide) (by decide)

/-- The unconditional UPDATE rewrites the status of exactly the rows with the
given hash and touches nothing else. -/
theorem statusOf_updateTransactionStatus (s : TxStore) (h hash : String) (st : TxStatus)
    (g : Option String) (b : Option Nat) (t : Option String) :
    statusOf (TransactionRepository.updateTransactionStatus s h st g b t).2 hash =
      if hash = h then (statusOf s hash).map (fun _ => st) else statusOf s hash := by
  simp only [TransactionRepository.updateTransactionStatus, statusOf,
    TransactionRepository.findByHash]
  rw [List.find?_map]
  have hpf : ((fun r : TxRow => decide (r.hash = hash)) ∘ (fun r : TxRow =>
      if r.hash = h then
        { r with status := st, gasUsed := g, blockNumber := b, timestamp := t }
      else r)) = fun r : TxRow => decide (r.hash = hash) := by
    funext r
    by_cases hrh : r.hash = h <;> simp [hrh]
  rw [hpf]
  cases hfind : List.find? (fun r : TxRow => decide (r.hash = hash)) s with
  | none => by_cases hh : hash = h <;> simp [hh]
  | some r =>
    have hpr := @List.find?_some TxRow (fun x => decide (x.hash = hash)) r s hfind
    have hrhash : r.hash = hash := of_decide_eq_true hpr
    by_cases hh : hash = h
    · have : r.hash = h := by rw [hrhash, hh]
      simp [Option.map, this, hh]
    · have : ¬ r.hash = h := by rw [hrhash]; exact hh
      simp [Option.map, this, hh]

/-- Appending rows does not change the recorded status of a hash that is
already present. -/
theorem statusOf_append_of_isSome (s extra : TxStore) (hash : String)
    (h : (statusOf s hash).isSome) : statusOf (s ++ extra) hash = statusOf s hash := by
  cases hfind : List.find? (fun r : TxRow => decide (r.hash = hash)) s with
  | none =>
    exfalso
    rw [statusOf, TransactionRepository.findByHash, hfind] at h
    simp at h
  | some r =>
    simp [statusOf, TransactionRepository.findByHash, List.find?_append, hfind]

/-- `storeTransaction` either leaves the store unchanged or appends exactly
one row with the supplied hash and status. -/
theorem storeTransaction_snd_cases (dbFault : Option PgError) (s : TxStore)
    (nextId now walletId : Nat) (hash fromAddr toAddr amount : String)
    (gasPrice gasUsed : Option String) (status : TxStatus) :
    (WalletService.storeTransaction dbFault s nextId now walletId hash fromAddr toAddr
      amount gasPrice gasUsed status).2 = s ∨
    (WalletService.storeTransaction dbFault s nextId now walletId hash fromAddr toAddr
      amount gasPrice gasUsed status).2 =
      s ++ [TxRow.mk nextId walletId hash fromAddr toAddr amount gasPrice gasUsed status
        none none now] := by
  unfold WalletService.storeTransaction TransactionRepository.createTransaction
  match dbFault with
  | some e =>
    by_cases he : e.code = "23505" <;> simp [he]
  | none =>
    by_cases hany : s.any (fun r => r.hash = hash)
    · simp [hany, PgError.code]
    · simp [hany]

/-- One consistent operation preserves store consistency. -/
theorem storeConsistent_applyTxOp (final : String → TxStatus) (s : TxStore) (op : TxOp)
    (hop : opConsistent final op) (hs : StoreConsistent final s) :
    StoreConsistent final (applyTxOp s op) := by
  cases op with
  | store dbFault nextId now wid h fa ta am gp gu st =>
    rcases storeTransaction_snd_cases dbFault s nextId now wid h fa ta am gp gu st with hc | hc
    · simpa only [applyTxOp, hc] using hs
    · simp only [applyTxOp, hc]
      intro r hr
      rcases List.mem_append.mp hr with hr | hr
      · exact hs r hr
      · have hreq : r = TxRow.mk nextId wid h fa ta am gp gu st none none now := by
          simpa using hr
        subst hreq
        exact hop
  | reconcile h w d =>
    cases w with
    | error e => simpa only [applyTxOp, WalletService.reconcile] using hs
    | ok u =>
      cases d with
      | none => simpa only [applyTxOp, WalletService.reconcile] using hs
      | some det =>
        intro r2 hr2
        simp only [applyTxOp, WalletService.reconcile,
          TransactionRepository.updateTransactionStatus] at hr2
        obtain ⟨r, hr, rfl⟩ := List.mem_map.mp hr2
        by_cases hrh : r.hash = h
        · simp only [hrh, if_true]
          right
          exact hop.1
        · simp only [hrh, if_false]
          exact hs r hr

/-- One consistent operation never changes a terminal recorded status. -/
theorem terminal_stable_applyTxOp (final : String → TxStatus) (s : TxStore) (op : TxOp)
    (hop : opConsistent final op) (hash : String) (st : TxStatus)
    (hterm : st.isTerminal = true) (hfin : st = final hash)
    (hst : statusOf s hash = some st) :
    statusOf (applyTxOp s op) hash = some st := by
  cases op with
  | store dbFault nextId now wid h fa ta am gp gu st2 =>
    rcases storeTransaction_snd_cases dbFault s nextId now wid h fa ta am gp gu st2 with hc | hc
    · simpa only [applyTxOp, hc] using hst
    · simp only [applyTxOp, hc]
      rw [statusOf_append_of_isSome]
      · exact hst
      · rw [hst]
        rfl
  | reconcile h w d =>
    cases w with
    | error e => simpa only [applyTxOp, WalletService.reconcile] using hst
    | ok u =>
      cases d with
      | none => simpa only [applyTxOp, WalletService.reconcile] using hst
      | some det =>
        simp only [applyTxOp, WalletService.reconcile]
        rw [statusOf_updateTransactionStatus]
        by_cases hh : hash = h
        · rw [if_pos hh, hst]
          have : det.status = st := by
            rw [hop.1, ← hh, ← hfin]
          simp [this]
        · rw [if_neg hh]
          exact hst

/-- Running a consistent trace preserves store consistency and never changes
a terminal recorded status. -/
theorem runTxOps_consistent (final : String → TxStatus) :
    ∀ (ops : List TxOp) (s : TxStore), OpsConsistent final ops → StoreConsistent final s →
      StoreConsistent final (runTxOps s ops) ∧
      ∀ hash st, st.isTerminal = true → st = final hash → statusOf s hash = some st →
        statusOf (runTxOps s ops) hash = some st
  | [], s, _, hs => ⟨hs, fun _ _ _ _ h => h⟩
  | op :: ops, s, hcons, hs => by
    have hop := hcons op (by simp)
    have hrest : OpsConsistent final ops := fun o ho => hcons o (by simp [ho])
    have h1 := storeConsistent_applyTxOp final s op hop hs
    have ih := runTxOps_consistent final ops (applyTxOp s op) hrest h1
    refine ⟨ih.1, ?_⟩
    intro hash st hterm hfin hst
    exact ih.2 hash st hterm hfin (terminal_stable_applyTxOp final s op hop hash st hterm hfin hst)

/-- A terminal recorded status in a consistent store is the hash's one final
outcome. -/
theorem terminal_eq_final (final : String → TxStatus) (s : TxStore)
    (hs : StoreConsistent final s) (hash : String) (st : TxStatus)
    (hterm : st.isTerminal = true) (hst : statusOf s hash = some st) : st = final hash := by
  cases hfind : List.find? (fun r : TxRow => decide (r.hash = hash)) s with
  | none =>
    exfalso
    rw [statusOf, TransactionRepository.findByHash, hfind] at hst
    simp at hst
  | some r =>
    rw [statusOf, TransactionRepository.findByHash, hfind] at hst
    have hrst : r.status = st := by simpa using hst
    have hpr := @List.find?_some TxRow (fun x => decide (x.hash = hash)) r s hfind
    have hrhash : r.hash = hash := of_decide_eq_true hpr
    have hmem : r ∈ s := List.mem_of_find?_eq_some hfind
    rcases hs r hmem with hp | hf
    · exfalso
      rw [hp] at hrst
      rw [← hrst] at hterm
      simp [TxStatus.isTerminal] at hterm
    · rw [← hrst, hf, hrhash]

/-- C7 (amended): assuming the chain gateway is consistent — once the
confirmation wait for a hash succeeds, `getTransaction` reports that hash's
one fixed terminal outcome, and history sync only ever inserts `pending` or
that same outcome — a row whose status has reached a terminal value keeps
exactly that value through every further operation: the status moves from
`pending` to `confirmed` or `failed` at most once and never transitions
backward.  (Without that assumption the unconditional UPDATE allows a
backward write; see the counterexample.) -/
theorem C7_terminal_status_stable (final : String → TxStatus) (s : TxStore)
    (ops1 ops2 : List TxOp) (hash : String) (st : TxStatus)
    (hcons : OpsConsistent final (ops1 ++ ops2))
    (hs : StoreConsistent final s)
    (hterm : st.isTerminal = true)
    (hst : statusOf (runTxOps s ops1) hash = some st) :
    statusOf (runTxOps s (ops1 ++ ops2)) hash = some st ∧ st = final hash := by
  have hc1 : OpsConsistent final ops1 := fun o ho => hcons o (List.mem_append_left _ ho)
  have hc2 : OpsConsistent final ops2 := fun o ho => hcons o (List.mem_append_right _ ho)
  have hs1 : StoreConsistent final (runTxOps s ops1) :=
    (runTxOps_consistent final ops1 s hc1 hs).1
  have hfin : st = final hash := terminal_eq_final final _ hs1 hash st hterm hst
  have hsplit : runTxOps s (ops1 ++ ops2) = runTxOps (runTxOps s ops1) ops2 := by
    simp [runTxOps, List.foldl_append]
  rw [hsplit]
  exact ⟨(runTxOps_consistent final ops2 _ hc2 hs1).2 hash st hterm hfin hst, hfin⟩

/-- Witness for C7 (amended) on a concrete consistent trace: a send, its
reconciliation to `confirmed`, then a second reconciliation report and a
duplicate history insert — the status stays `confirmed`. -/
theorem C7_terminal_status_stable_witness :
    statusOf (runTxOps []
      ([TxOp.store none 1 10 5 "0xh" "0xa" "0xb" "1" none none .pending,
        TxOp.reconcile "0xh" (.ok ()) (some ⟨.confirmed, some "21000", some 100, some "t1"⟩)] ++
       [TxOp.reconcile "0xh" (.ok ()) (some ⟨.confirmed, none, none, none⟩),
        TxOp.store none 2 11 5 "0xh" "0xa" "0xb" "1" none none .confirmed])) "0xh"
      = some .confirmed ∧ TxStatus.confirmed = (fun _ => TxStatus.confirmed) "0xh" :=
  C7_terminal_status_stable (fun _ => .confirmed) []
    [TxOp.store none 1 10 5 "0xh" "0xa" "0xb" "1" none none .pending,
     TxOp.reconcile "0xh" (.ok ()) (some ⟨.confirmed, some "21000", some 100, some "t1"⟩)]
    [TxOp.reconcile "0xh" (.ok ()) (some ⟨.confirmed, none, none, none⟩),
     TxOp.store none 2 11 5 "0xh" "0xa" "0xb" "1" none none .confirmed]
    "0xh" .confirmed (by decide) (by decide) (by decide) (by decide)

/-- C7 counterexample to the claim as stated: with the gateway answers the
code accepts (history reporting a transaction `confirmed`, then
`getTransaction` during reconciliation finding it receipt-less, hence
`pending`), the unconditional status UPDATE drives a row from `confirmed`
back to `pending`. -/
theorem C7_backward_transition_reachable :
    statusOf (runTxOps []
      [TxOp.store none 1 10 5 "0xh" "0xa" "0xb" "1" none none .confirmed]) "0xh"
      = some .confirmed ∧
    statusOf (runTxOps []
      [TxOp.store none 1 10 5 "0xh" "0xa" "0xb" "1" none none .confirmed,
       TxOp.reconcile "0xh" (.ok ()) (some ⟨.pending, none, none, none⟩)]) "0xh"
      = some .pending :=
  ⟨by decide, by decide⟩
